import Mathlib

/-!
Verification development for the `unzip` repository: a collection of
command-line extraction samples (fflate, adm-zip, minizlib, jszip, minizip,
extract-zip, node:zlib, unzipper, zip.js, system unzip) together with the
specification of the archive-extraction core they converge on.

Each sample's extraction loop, statistics accumulation, path resolution and
fallback logic is shallowly embedded below; external library primitives
(inflate, unzipSync, ...) are abstracted as parameters or, where a claim is
about core functionality the samples delegate entirely to libraries,
modelled from the specification (such definitions say so in their doc
comment).  Strings handled at the character level are embedded as lists of
natural numbers (JS code units).
-/

/-! ## Path resolution (node `path.join`) and the extraction write target -/

/-- One step of node path normalization over a stack of already-normalized
segments held in reverse order: `.` and empty segments vanish, `..` pops a
normal segment but accumulates over a leading run of `..`. -/
def normStep (acc : List String) (s : String) : List String :=
  if s = "." ∨ s = "" then acc
  else if s = ".." then
    match acc with
    | [] => [".."]
    | t :: rest => if t = ".." then s :: t :: rest else rest
  else s :: acc

/-- Node path normalization of a relative slash-separated path given as a
segment list, as performed by `path.join` after concatenation. -/
def normSegs (segs : List String) : List String :=
  (segs.foldl normStep []).reverse

/-- Embeds `path.join(outputDir, filename)` as used by `src/fflate.ts` line 92
and `src/adm-zip.ts` line 64: concatenate the segments and normalize. -/
def joinSegs (base entry : List String) : List String :=
  normSegs (base ++ entry)

/-- Embeds the per-entry write target of `src/fflate.ts` lines 91-100: the
file path is `path.join(outputDir, filename)` and `writeFileSync` is called
on it unconditionally — there is no check of the resolved path against the
output root and no rejection of any entry. -/
def fflateTargetPath (outputDir filename : List String) : List String :=
  joinSegs outputDir filename

/-- Embeds the write set of the `src/fflate.ts` entry loop: every entry of
the decoded archive is written, to its joined path; no entry is rejected. -/
def fflateWrites (outputDir : List String)
    (files : List (List String × List Nat)) : List (List String) :=
  files.map (fun f => fflateTargetPath outputDir f.1)

/-! ## fflate statistics loop -/

/-- The counters of the `src/fflate.ts` summary (lines 82-127). -/
structure FflateStats where
  totalBytes : Nat
  fileCount : Nat
  dirCount : Nat
  deriving Repr, DecidableEq

/-- Embeds the `src/fflate.ts` entry loop, lines 82-108: for every pair
produced by `unzipSync`, the contents are written and
`totalBytes += contents.length; fileCount++` run; `dirCount` is initialized
to `0` (line 85) and no statement in the loop or after it updates it. -/
def fflateLoop (files : List (String × List Nat)) : FflateStats :=
  files.foldl
    (fun st f =>
      { st with totalBytes := st.totalBytes + f.2.length,
                fileCount := st.fileCount + 1 })
    { totalBytes := 0, fileCount := 0, dirCount := 0 }

/-- The directory count printed by the `src/fflate.ts` summary (line 127). -/
def fflateReportedDirs (files : List (String × List Nat)) : Nat :=
  (fflateLoop files).dirCount

/-! ## Archive data model and the decoded entry list -/

/-- Declared compression method of an entry (spec §3). -/
inductive Method where
  | stored
  | deflate
  | unknown
  deriving Repr, DecidableEq

/-- Entry descriptor of the container directory (spec §3). -/
structure EntryDescriptor where
  path : String
  isDirectory : Bool
  declaredMethod : Method
  compressedSize : Nat
  uncompressedSize : Nat
  deriving Repr, DecidableEq

/-- An archive entry together with its true uncompressed payload. -/
structure ZipEntry where
  desc : EntryDescriptor
  contents : List Nat
  deriving Repr, DecidableEq

/-- Modelled from the spec: `unzipSync` is the external fflate library; on an
archive with zero corruption it yields, in archive order, each non-directory
entry's path paired with its true uncompressed bytes (spec §8: "bytes_written
equal to the sum of each entry's true uncompressed size"). -/
def unzipSyncModel (archive : List ZipEntry) : List (String × List Nat) :=
  (archive.filter (fun z => !z.desc.isDirectory)).map
    (fun z => (z.desc.path, z.contents))

/-! ### Helper lemmas for the fflate loop -/

theorem fflateLoop_foldl (files : List (String × List Nat)) (st : FflateStats) :
    files.foldl
      (fun st f =>
        { st with totalBytes := st.totalBytes + f.2.length,
                  fileCount := st.fileCount + 1 })
      st =
    { totalBytes := st.totalBytes + (files.map (fun f => f.2.length)).sum,
      fileCount := st.fileCount + files.length,
      dirCount := st.dirCount } := by
  induction files generalizing st with
  | nil => simp
  | cons f rest ih =>
    simp only [List.foldl_cons, ih, List.map_cons, List.sum_cons,
      List.length_cons]
    congr 1 <;> omega

/-- C10: in the fflate sample the final summary reports exactly 0
directories, whatever entry list the archive decodes to: the `dirCount`
counter is initialized to zero and no execution path modifies it. -/
theorem fflate_reported_dirs_eq_zero (files : List (String × List Nat)) :
    fflateReportedDirs files = 0 := by
  simp [fflateReportedDirs, fflateLoop, fflateLoop_foldl]

/-- C5: on an uncorrupted archive (modelled by `unzipSyncModel` yielding each
non-directory entry's true bytes) the fflate summary counters satisfy
`files_written = N`, the number of non-directory entries, and
`bytes_written = ` the sum of their true uncompressed sizes. -/
theorem fflate_completed_counters (archive : List ZipEntry) :
    (fflateLoop (unzipSyncModel archive)).fileCount =
      (archive.filter (fun z => !z.desc.isDirectory)).length ∧
    (fflateLoop (unzipSyncModel archive)).totalBytes =
      ((archive.filter (fun z => !z.desc.isDirectory)).map
        (fun z => z.contents.length)).sum := by
  constructor <;>
    simp [fflateLoop, fflateLoop_foldl, unzipSyncModel,
      Function.comp_def]

/-- C1: the code writes outside the output root instead of rejecting.  For
the entry path `"../../etc/passwd"` and output root `"out"`, the fflate
write loop (which performs no path check) writes the entry, the resolved
target is `"../etc/passwd"`, and that target is not under the output root —
no `PathTraversalError` exists anywhere in the repository. -/
theorem fflate_traversal_write_escapes :
    fflateWrites ["out"] [(["..", "..", "etc", "passwd"], [0])] =
      [["..", "etc", "passwd"]] ∧
    (["out"].isPrefixOf (fflateTargetPath ["out"] ["..", "..", "etc", "passwd"])) = false := by
  constructor <;> rfl

/-! ## Decompression strategy fallback chain (node:zlib sample) -/

/-- Decompression strategy tags (spec §3 `DecompressionAttempt`). -/
inductive Strategy where
  | zlibDeflate
  | rawDeflate
  | gzipWrapped
  deriving Repr, DecidableEq

/-- The three external `node:zlib` decompression primitives used by the
deflate extractor sample; each either produces the decompressed bytes or
fails.  They are library code outside the repository and enter the embedding
as abstract parameters. -/
structure DeflateOracle where
  inflate : List Nat → Option (List Nat)
  inflateRaw : List Nat → Option (List Nat)
  gunzip : List Nat → Option (List Nat)

/-- Embeds the try/catch cascade of the node:zlib deflate extractor sample
(lines 49-83): attempt `inflateSync`; on failure attempt `inflateRawSync`;
on failure attempt `gunzipSync`; stop at the first success and write only
its output.  The first component records, in order, the strategies actually
attempted. -/
def deflateChain (o : DeflateOracle) (data : List Nat) :
    List Strategy × Option (Strategy × List Nat) :=
  match o.inflate data with
  | some out => ([Strategy.zlibDeflate], some (Strategy.zlibDeflate, out))
  | none =>
    match o.inflateRaw data with
    | some out =>
        ([Strategy.zlibDeflate, Strategy.rawDeflate],
         some (Strategy.rawDeflate, out))
    | none =>
      match o.gunzip data with
      | some out =>
          ([Strategy.zlibDeflate, Strategy.rawDeflate, Strategy.gzipWrapped],
           some (Strategy.gzipWrapped, out))
      | none =>
          ([Strategy.zlibDeflate, Strategy.rawDeflate, Strategy.gzipWrapped],
           none)

/-- C3: the deflate fallback chain attempts standard deflate first, raw
deflate exactly when that fails, gzip exactly when both fail, and stops at
the first success, producing only that strategy's output. -/
theorem deflateChain_order (o : DeflateOracle) (data : List Nat) :
    ((deflateChain o data).1.head? = some Strategy.zlibDeflate) ∧
    (Strategy.rawDeflate ∈ (deflateChain o data).1 ↔ o.inflate data = none) ∧
    (Strategy.gzipWrapped ∈ (deflateChain o data).1 ↔
      (o.inflate data = none ∧ o.inflateRaw data = none)) ∧
    (∀ out, o.inflate data = some out →
      deflateChain o data =
        ([Strategy.zlibDeflate], some (Strategy.zlibDeflate, out))) ∧
    (∀ out, o.inflate data = none → o.inflateRaw data = some out →
      deflateChain o data =
        ([Strategy.zlibDeflate, Strategy.rawDeflate],
         some (Strategy.rawDeflate, out))) ∧
    (∀ out, o.inflate data = none → o.inflateRaw data = none →
      o.gunzip data = some out →
      deflateChain o data =
        ([Strategy.zlibDeflate, Strategy.rawDeflate, Strategy.gzipWrapped],
         some (Strategy.gzipWrapped, out))) := by
  rcases hi : o.inflate data with _ | outI <;>
    rcases hr : o.inflateRaw data with _ | outR <;>
      rcases hg : o.gunzip data with _ | outG <;>
        simp [deflateChain, hi, hr, hg]

/-- A concrete oracle whose standard-deflate attempt fails and whose raw
attempt succeeds, exercising the fallback branch of `deflateChain_order`. -/
def rawOnlyOracle : DeflateOracle where
  inflate := fun _ => none
  inflateRaw := fun _ => some [7, 7]
  gunzip := fun _ => none

theorem deflateChain_order_witness :
    deflateChain rawOnlyOracle [1] =
      ([Strategy.zlibDeflate, Strategy.rawDeflate],
       some (Strategy.rawDeflate, [7, 7])) :=
  (deflateChain_order rawOnlyOracle [1]).2.2.2.2.1 [7, 7] rfl rfl

/-! ## Integrity check on the declared uncompressed size -/

/-- Per-entry extraction errors relevant here (spec §7 taxonomy). -/
inductive ExtractError where
  | integrityError
  | unsupportedMethod
  deriving Repr, DecidableEq

/-- Modelled from the spec: the declared-size integrity check of the core
Decompression Strategy Selector (§4.2: "The selector's output size, once
decompression succeeds, MUST equal the entry's declared `uncompressed_size`
when that size is known and nonzero; a mismatch is an `IntegrityError`, not
a silent success").  The samples delegate this stage to external libraries
(fflate.ts lines 99-100 and the node:zlib sample lines 49-57 write the
library's output directly), so the check is absent from `src/`. -/
def checkDeclaredSize (declared : Nat) (out : List Nat) :
    Except ExtractError (List Nat) :=
  if declared ≠ 0 ∧ out.length ≠ declared then
    Except.error ExtractError.integrityError
  else Except.ok out

/-- Per-entry outcome: run the fallback chain, then the declared-size check
on its output; exhausting all strategies is an `UnsupportedMethodError`. -/
def entryOutcome (o : DeflateOracle) (e : EntryDescriptor)
    (data : List Nat) : Except ExtractError (List Nat) :=
  match (deflateChain o data).2 with
  | none => Except.error ExtractError.unsupportedMethod
  | some (_, out) => checkDeclaredSize e.uncompressedSize out

/-- Bytes the sink receives for an entry: only a successful outcome is
written; an error writes nothing. -/
def sinkWrite : Except ExtractError (List Nat) → Option (List Nat)
  | Except.ok out => some out
  | Except.error _ => none

/-- C2: if decompression succeeds under some strategy, the declared
uncompressed size is known and nonzero, and the produced size differs from
it, the entry's result is an `IntegrityError` and the mismatched bytes are
never written to the sink. -/
theorem entryOutcome_integrity_mismatch (o : DeflateOracle)
    (e : EntryDescriptor) (data : List Nat) (s : Strategy) (out : List Nat)
    (hchain : (deflateChain o data).2 = some (s, out))
    (hknown : e.uncompressedSize ≠ 0)
    (hmismatch : out.length ≠ e.uncompressedSize) :
    entryOutcome o e data = Except.error ExtractError.integrityError ∧
    sinkWrite (entryOutcome o e data) = none := by
  have h : entryOutcome o e data = Except.error ExtractError.integrityError := by
    simp [entryOutcome, hchain, checkDeclaredSize, hknown, hmismatch]
  exact ⟨h, by simp [h, sinkWrite]⟩

/-- A concrete three-byte output against a declared size of 5: the entry
fails with `IntegrityError` and nothing reaches the sink. -/
def shortOutputOracle : DeflateOracle where
  inflate := fun _ => some [1, 2, 3]
  inflateRaw := fun _ => none
  gunzip := fun _ => none

/-- A deflate entry declaring `uncompressed_size = 5`. -/
def fiveByteEntry : EntryDescriptor where
  path := "a/c.bin"
  isDirectory := false
  declaredMethod := Method.deflate
  compressedSize := 3
  uncompressedSize := 5

theorem entryOutcome_integrity_mismatch_witness :
    entryOutcome shortOutputOracle fiveByteEntry [9] =
        Except.error ExtractError.integrityError ∧
    sinkWrite (entryOutcome shortOutputOracle fiveByteEntry [9]) = none :=
  entryOutcome_integrity_mismatch shortOutputOracle fiveByteEntry [9]
    Strategy.zlibDeflate [1, 2, 3] rfl (by decide) (by decide)

/-! ## Per-entry failure handling across the samples -/

/-- An entry as seen by the minizip/jszip sample loops: its path, whether it
is a directory, and the outcome of extracting-and-writing it (the external
library call and the sink abstracted into an `Except`). -/
structure SessEntry where
  path : String
  isDir : Bool
  result : Except String (List Nat)

/-- Accumulated session state of the minizip sample loop: byte and entry
counters plus the per-entry failure reports, each carrying the entry path
and the error message, in the order they were emitted. -/
structure SessAcc where
  totalBytes : Nat
  extractedCount : Nat
  errors : List (String × String)
  deriving Repr, DecidableEq

/-- Embeds one iteration of the minizip sample's entry loop (lines 75-118):
directories only bump the progress counter; a successful file adds its byte
count and bumps the counter; a failing file has its path and reason reported
by the catch block and the loop continues with the next entry. -/
def sessionStep (acc : SessAcc) (e : SessEntry) : SessAcc :=
  if e.isDir then { acc with extractedCount := acc.extractedCount + 1 }
  else
    match e.result with
    | Except.ok content =>
        { acc with totalBytes := acc.totalBytes + content.length,
                   extractedCount := acc.extractedCount + 1 }
    | Except.error msg =>
        { acc with errors := acc.errors ++ [(e.path, msg)] }

/-- Embeds the whole minizip sample entry loop: a left fold of
`sessionStep` over the entries, starting from zeroed counters. -/
def sessionRun (entries : List SessEntry) : SessAcc :=
  entries.foldl sessionStep { totalBytes := 0, extractedCount := 0, errors := [] }

/-- The failure report an entry produces, if any: a non-directory entry whose
extraction failed yields its path and reason. -/
def failRecord (e : SessEntry) : Option (String × String) :=
  if e.isDir then none
  else
    match e.result with
    | Except.ok _ => none
    | Except.error msg => some (e.path, msg)

theorem sessionRun_foldl (entries : List SessEntry) (acc : SessAcc) :
    entries.foldl sessionStep acc =
      { totalBytes := acc.totalBytes +
          ((entries.filterMap (fun e => match e.result with
              | Except.ok c => if e.isDir then none else some c.length
              | Except.error _ => none)).sum),
        extractedCount := acc.extractedCount +
          (entries.filter (fun e => (failRecord e).isNone)).length,
        errors := acc.errors ++ entries.filterMap failRecord } := by
  induction entries generalizing acc with
  | nil => simp
  | cons e rest ih =>
    simp only [List.foldl_cons, ih]
    rcases e with ⟨p, d, r⟩
    rcases d with _ | _ <;> rcases r with msg | c <;>
      simp [sessionStep, failRecord, List.filterMap_cons, List.filter_cons] <;>
        (try constructor) <;> omega

/-- C4 (amended): in the minizip/jszip sample loops every per-entry failure
is reported with its path and reason and extraction continues: the emitted
failure reports are exactly the failing non-directory entries, in order,
and every non-failing entry — including those after a failure — is still
processed and counted. -/
theorem sessionRun_reports_all_failures (entries : List SessEntry) :
    (sessionRun entries).errors = entries.filterMap failRecord ∧
    (sessionRun entries).extractedCount =
      (entries.filter (fun e => (failRecord e).isNone)).length := by
  constructor <;> simp [sessionRun, sessionRun_foldl]

/-- Embeds the fflate sample's control flow for entry failures: the entry
loop (lines 88-108) sits inside a single try whose catch (lines 137-151)
terminates the process, so the first failing entry aborts the session and
later entries are never processed. -/
def fflateRunAux (st : FflateStats) :
    List (String × Except String (List Nat)) →
      Except (String × String) FflateStats
  | [] => Except.ok st
  | (name, Except.error msg) :: _ => Except.error (name, msg)
  | (_, Except.ok content) :: rest =>
      fflateRunAux
        { st with totalBytes := st.totalBytes + content.length,
                  fileCount := st.fileCount + 1 } rest

/-- The fflate sample session over entries whose write outcome is given. -/
def fflateRun (files : List (String × Except String (List Nat))) :
    Except (String × String) FflateStats :=
  fflateRunAux { totalBytes := 0, fileCount := 0, dirCount := 0 } files

/-- C4 counterexample: in the fflate sample a per-entry failure terminates
the whole session — with a first entry failing and a second entry that would
succeed, the run ends in the fatal error of the first entry and no summary
(and no record of the second entry) is produced, contradicting "a per-entry
failure never terminates the session". -/
theorem fflateRun_aborts_on_entry_failure :
    fflateRun [("a.txt", Except.error "EACCES"),
               ("b.txt", Except.ok [1, 2, 3])] =
      Except.error ("a.txt", "EACCES") := rfl

/-! ## Throughput computation and division guarding -/

/-- Result of a JS floating-point division restricted to the nonnegative
operands the samples use: a finite value, positive infinity, or NaN. -/
inductive JsNum where
  | num (q : ℚ)
  | inf
  | nan
  deriving Repr, DecidableEq

/-- Models IEEE-754 division `a / b` as JS evaluates it for nonnegative
rational operands: division by zero yields `Infinity` (or `NaN` for
`0 / 0`), never an exception. -/
def jsDiv (a b : ℚ) : JsNum :=
  if b = 0 then (if a = 0 then JsNum.nan else JsNum.inf) else JsNum.num (a / b)

/-- Embeds the final-summary average speed of `src/fflate.ts` line 124:
`totalBytes / totalTime` with `totalTime = (endTime - startTime) / 1000`,
computed and printed unconditionally — no branch inspects `totalTime`. -/
def fflateAvgSpeed (totalBytes elapsedMs : Nat) : JsNum :=
  jsDiv (totalBytes : ℚ) ((elapsedMs : ℚ) / 1000)

/-- State of the minizlib sample's progress handler (lines 59, 82-98):
start time, time of the last printed progress line, bytes so far (all times
in milliseconds). -/
structure ProgressState where
  startTime : Nat
  lastProgress : Nat
  totalBytes : Nat
  deriving Repr, DecidableEq

/-- Embeds the minizlib sample's `data` handler (lines 84-98): add the chunk
length; if at least 100ms passed since the last printed line, print
`totalBytes / elapsedSeconds` and remember the time, else print nothing. -/
def minizlibOnData (st : ProgressState) (now len : Nat) :
    ProgressState × Option JsNum :=
  let tb := st.totalBytes + len
  if 100 ≤ now - st.lastProgress then
    ({ st with totalBytes := tb, lastProgress := now },
     some (jsDiv (tb : ℚ) (((now - st.startTime : Nat) : ℚ) / 1000)))
  else
    ({ st with totalBytes := tb }, none)

/-- C6 counterexample: the fflate summary's throughput division is not
guarded — when the whole extraction falls inside one wall-clock millisecond
(`elapsedMs = 0`) the reported average speed is the IEEE infinity, not an
"unbounded" report or an omission. -/
theorem fflateAvgSpeed_unguarded_inf :
    fflateAvgSpeed 100 0 = JsNum.inf := by
  simp [fflateAvgSpeed, jsDiv]

/-- C6 (amended): the minizlib progress handler's division is protected by
the 100ms sampling gate: whenever the handler prints (the last printed line
being no earlier than the start time, as the code guarantees), the elapsed
time is at least 100ms, so the printed throughput is a finite value. -/
theorem minizlibOnData_finite (st : ProgressState) (now len : Nat)
    (hinit : st.startTime ≤ st.lastProgress)
    (hfire : 100 ≤ now - st.lastProgress) :
    ∃ q : ℚ, (minizlibOnData st now len).2 = some (JsNum.num q) := by
  have helapsed : 100 ≤ now - st.startTime := by omega
  have hpos : (((now - st.startTime : Nat) : ℚ) / 1000) ≠ 0 := by
    have : (100 : ℚ) ≤ ((now - st.startTime : Nat) : ℚ) := by
      exact_mod_cast helapsed
    positivity
  refine ⟨(st.totalBytes + len : ℚ) / (((now - st.startTime : Nat) : ℚ) / 1000), ?_⟩
  simp [minizlibOnData, hfire, jsDiv, hpos]

theorem minizlibOnData_finite_witness :
    ∃ q : ℚ,
      (minizlibOnData { startTime := 0, lastProgress := 0, totalBytes := 0 }
        100 5).2 = some (JsNum.num q) :=
  minizlibOnData_finite { startTime := 0, lastProgress := 0, totalBytes := 0 }
    100 5 (by decide) (by decide)

/-! ## Extension-count report ordering -/

/-- Inserting one report line into an already sorted report, keeping it
before every line of equal count: together with `sortByCountDesc` this is a
stable sort on the count, descending — the order ECMAScript's (stable)
`Array.prototype.sort` produces for the comparator `(a, b) => b[1] - a[1]`
of `src/fflate.ts` line 132 and the jszip sample line 122. -/
def insertCountDesc (x : String × Nat) :
    List (String × Nat) → List (String × Nat)
  | [] => [x]
  | y :: ys => if x.2 < y.2 then y :: insertCountDesc x ys else x :: y :: ys

/-- Embeds `Object.entries(fileTypes).sort((a, b) => b[1] - a[1])`: a stable
sort of the (extension, count) lines by count, descending; ties keep the
order the extensions were first inserted into the object. -/
def sortByCountDesc : List (String × Nat) → List (String × Nat)
  | [] => []
  | x :: xs => insertCountDesc x (sortByCountDesc xs)

theorem insertCountDesc_perm (x : String × Nat) (l : List (String × Nat)) :
    (insertCountDesc x l).Perm (x :: l) := by
  induction l with
  | nil => simp [insertCountDesc]
  | cons y ys ih =>
    by_cases h : x.2 < y.2
    · simpa [insertCountDesc, h] using
        ((ih.cons y).trans (List.Perm.swap x y ys))
    · simp [insertCountDesc, h]

theorem insertCountDesc_sorted (x : String × Nat) (l : List (String × Nat))
    (hl : l.Pairwise (fun a b => b.2 ≤ a.2)) :
    (insertCountDesc x l).Pairwise (fun a b => b.2 ≤ a.2) := by
  induction l with
  | nil => simp [insertCountDesc]
  | cons y ys ih =>
    rcases List.pairwise_cons.1 hl with ⟨hy, hys⟩
    by_cases h : x.2 < y.2
    · rw [insertCountDesc, if_pos h]
      refine List.pairwise_cons.2 ⟨?_, ih hys⟩
      intro z hz
      rcases List.mem_cons.1 ((insertCountDesc_perm x ys).mem_iff.1 hz) with
        hz | hz
      · subst hz; omega
      · exact hy z hz
    · rw [insertCountDesc, if_neg h]
      refine List.pairwise_cons.2 ⟨?_, hl⟩
      intro z hz
      rcases List.mem_cons.1 hz with hz | hz
      · subst hz; omega
      · have := hy z hz; omega

theorem sortByCountDesc_sorted (l : List (String × Nat)) :
    (sortByCountDesc l).Pairwise (fun a b => b.2 ≤ a.2) := by
  induction l with
  | nil => simp [sortByCountDesc]
  | cons x xs ih => exact insertCountDesc_sorted x _ ih

theorem sortByCountDesc_perm (l : List (String × Nat)) :
    (sortByCountDesc l).Perm l := by
  induction l with
  | nil => simp [sortByCountDesc]
  | cons x xs ih =>
    exact (insertCountDesc_perm x (sortByCountDesc xs)).trans (ih.cons x)

theorem insertCountDesc_filter_eq (x : String × Nat)
    (l : List (String × Nat)) (c : Nat)
    (hl : l.Pairwise (fun a b => b.2 ≤ a.2)) :
    (insertCountDesc x l).filter (fun p => p.2 = c) =
      if x.2 = c then x :: l.filter (fun p => p.2 = c)
      else l.filter (fun p => p.2 = c) := by
  induction l with
  | nil => by_cases hx : x.2 = c <;> simp [insertCountDesc, hx]
  | cons y ys ih =>
    rcases List.pairwise_cons.1 hl with ⟨hy, hys⟩
    by_cases h : x.2 < y.2
    · rw [insertCountDesc, if_pos h]
      by_cases hx : x.2 = c
      · by_cases hyc : y.2 = c
        · omega
        · simp only [List.filter_cons, ih hys, hx]
          simp [hyc]
      · simp only [List.filter_cons, ih hys, hx]
        simp
    · rw [insertCountDesc, if_neg h]
      by_cases hx : x.2 = c <;> simp [List.filter_cons, hx]

/-- C7 (amended): the report is sorted descending by count and is a
permutation of the accumulated lines, and ties are broken by first-insertion
order, not by extension string: within each count the report keeps the lines
in exactly the order they appear in the (insertion-ordered) input. -/
theorem sortByCountDesc_spec (l : List (String × Nat)) :
    (sortByCountDesc l).Pairwise (fun a b => b.2 ≤ a.2) ∧
    (sortByCountDesc l).Perm l ∧
    ∀ c, (sortByCountDesc l).filter (fun p => p.2 = c) =
      l.filter (fun p => p.2 = c) := by
  refine ⟨sortByCountDesc_sorted l, sortByCountDesc_perm l, ?_⟩
  intro c
  induction l with
  | nil => simp [sortByCountDesc]
  | cons x xs ih =>
    rw [sortByCountDesc,
      insertCountDesc_filter_eq x _ c (sortByCountDesc_sorted xs)]
    by_cases hx : x.2 = c <;> simp [List.filter_cons, hx, ih]

/-- C7 counterexample: for the spec's example counts, encountered in the
order `.txt`, `.png`, `.md`, the code's sort yields
`[(".txt", 3), (".md", 3), (".png", 1)]` — ties in first-encounter order —
and not the claimed extension-ascending order
`[(".md", 3), (".txt", 3), (".png", 1)]`. -/
theorem sortByCountDesc_ties_not_alphabetical :
    sortByCountDesc [(".txt", 3), (".png", 1), (".md", 3)] =
      [(".txt", 3), (".md", 3), (".png", 1)] ∧
    sortByCountDesc [(".txt", 3), (".png", 1), (".md", 3)] ≠
      [(".md", 3), (".txt", 3), (".png", 1)] := by
  constructor
  · rfl
  · decide

/-! ## Extension bucketing (code-unit level)

File names are embedded as lists of JS code units (`List Nat`); `46` is
`.`, `47` is `/`, `65..90` are `A..Z`. -/

/-- Models `String.prototype.toLowerCase` on one ASCII code unit, as applied
by `.toLowerCase()` in `src/fflate.ts` line 56 and the minizip/jszip
samples. -/
def lowerCU (n : Nat) : Nat :=
  if 65 ≤ n ∧ n ≤ 90 then n + 32 else n

/-- The final path component: the code units after the last `/`, as node
`path.extname` restricts itself to the basename. -/
def baseSeg (l : List Nat) : List Nat :=
  (l.reverse.takeWhile (fun c => c != 47)).reverse

/-- The suffix of a basename tail from its last `.` (inclusive), empty when
there is no dot. -/
def extTail (rest : List Nat) : List Nat :=
  if 46 ∈ rest then 46 :: (rest.reverse.takeWhile (fun c => c != 46)).reverse
  else []

/-- Models node `path.extname` on a slash-separated name: the extension of
the basename, where a dot in first position does not start an extension and
the basename `".."` has none. -/
def extnameCU (l : List Nat) : List Nat :=
  match baseSeg l with
  | [] => []
  | c0 :: rest => if c0 = 46 ∧ rest = [46] then [] else extTail rest

/-- The code units of the sentinel string `"(no extension)"`. -/
def noExtensionKey : List Nat :=
  [40, 110, 111, 32, 101, 120, 116, 101, 110, 115, 105, 111, 110, 41]

/-- Embeds the bucketing expression
`path.extname(name).toLowerCase() || '(no extension)'` of `src/fflate.ts`
line 56 and the minizip/jszip samples: the lowercased extension, or the
sentinel when it is empty. -/
def extBucket (name : List Nat) : List Nat :=
  if (extnameCU name).map lowerCU = [] then noExtensionKey
  else (extnameCU name).map lowerCU

theorem lowerCU_eq46_iff (n : Nat) : lowerCU n = 46 ↔ n = 46 := by
  unfold lowerCU; split <;> omega

theorem lowerCU_eq47_iff (n : Nat) : lowerCU n = 47 ↔ n = 47 := by
  unfold lowerCU; split <;> omega

theorem lowerCU_idem (n : Nat) : lowerCU (lowerCU n) = lowerCU n := by
  simp only [lowerCU]; split <;> (try split) <;> omega

theorem takeWhile_map_ne (l : List Nat) (c : Nat)
    (hc : ∀ n, lowerCU n = c ↔ n = c) :
    (l.map lowerCU).takeWhile (fun x => x != c) =
      (l.takeWhile (fun x => x != c)).map lowerCU := by
  induction l with
  | nil => rfl
  | cons a l ih =>
    by_cases h : a = c
    · subst h
      simp [List.takeWhile_cons, (hc a).2 rfl]
    · have hla : lowerCU a ≠ c := fun hh => h ((hc a).1 hh)
      simp [List.takeWhile_cons, h, hla, ih]

theorem baseSeg_map_lower (l : List Nat) :
    baseSeg (l.map lowerCU) = (baseSeg l).map lowerCU := by
  unfold baseSeg
  rw [← List.map_reverse, takeWhile_map_ne _ 47 lowerCU_eq47_iff,
    List.map_reverse]

theorem mem46_map_lower (l : List Nat) : 46 ∈ l.map lowerCU ↔ 46 ∈ l := by
  constructor
  · intro h
    rcases List.mem_map.1 h with ⟨a, ha, hla⟩
    exact ((lowerCU_eq46_iff a).1 hla) ▸ ha
  · intro h
    exact List.mem_map.2 ⟨46, h, (lowerCU_eq46_iff 46).2 rfl⟩

theorem extTail_map_lower (rest : List Nat) :
    extTail (rest.map lowerCU) = (extTail rest).map lowerCU := by
  unfold extTail
  by_cases h : 46 ∈ rest
  · rw [if_pos ((mem46_map_lower rest).2 h), if_pos h,
      ← List.map_reverse, takeWhile_map_ne _ 46 lowerCU_eq46_iff,
      ← List.map_reverse, List.map_cons]
    rfl
  · rw [if_neg (fun hh => h ((mem46_map_lower rest).1 hh)), if_neg h]
    rfl

theorem extnameCU_map_lower (l : List Nat) :
    extnameCU (l.map lowerCU) = (extnameCU l).map lowerCU := by
  unfold extnameCU
  rw [baseSeg_map_lower]
  rcases hb : baseSeg l with _ | ⟨c0, rest⟩
  · rfl
  · simp only [List.map_cons]
    by_cases hdd : c0 = 46 ∧ rest = [46]
    · rcases hdd with ⟨h0, h1⟩
      subst h0; subst h1
      simp [lowerCU]
    · rw [if_neg hdd, if_neg ?_, extTail_map_lower]
      rintro ⟨h0, h1⟩
      refine hdd ⟨(lowerCU_eq46_iff c0).1 h0, ?_⟩
      rcases rest with _ | ⟨r0, rtail⟩
      · simp at h1
      · rcases rtail with _ | _
        · simp only [List.map_cons, List.map_nil, List.cons.injEq] at h1
          rw [(lowerCU_eq46_iff r0).1 h1.1]
        · simp at h1

/-- C8: extension bucketing is case-insensitive — lowering the case of a
name never changes its bucket — and a name whose basename has no extension
is bucketed under the sentinel `"(no extension)"` key. -/
theorem extBucket_case_insensitive (name : List Nat) :
    extBucket (name.map lowerCU) = extBucket name ∧
    (extnameCU name = [] → extBucket name = noExtensionKey) := by
  constructor
  · unfold extBucket
    rw [extnameCU_map_lower, List.map_map]
    have hcomp : lowerCU ∘ lowerCU = lowerCU := funext lowerCU_idem
    rw [hcomp]
  · intro h
    simp [extBucket, h]

/-- The code units of `"a.TXT"`. -/
def aUpperTxtName : List Nat := [97, 46, 84, 88, 84]

/-- The code units of `"README"`. -/
def readmeName : List Nat := [82, 69, 65, 68, 77, 69]

theorem extBucket_case_insensitive_witness :
    extBucket (aUpperTxtName.map lowerCU) = extBucket aUpperTxtName ∧
    extBucket readmeName = noExtensionKey :=
  ⟨(extBucket_case_insensitive aUpperTxtName).1,
   (extBucket_case_insensitive readmeName).2 (by decide)⟩

/-! ## Per-extension statistics: incremental accumulation vs re-walk -/

/-- Embeds the JS object update `stats[ext] = (stats[ext] || 0) + n` on an
insertion-ordered association list: bump an existing key in place, or append
the key at the end. -/
def addCount (stats : List (List Nat × Nat)) (k : List Nat) (n : Nat) :
    List (List Nat × Nat) :=
  match stats with
  | [] => [(k, n)]
  | (k', c) :: rest =>
      if k' = k then (k', c + n) :: rest else (k', c) :: addCount rest k n

/-- The count a JS object lookup `stats[k] || 0` reads. -/
def countFor (stats : List (List Nat × Nat)) (k : List Nat) : Nat :=
  match stats with
  | [] => 0
  | (k', c) :: rest => if k' = k then c else countFor rest k

/-- An entry as the minizip sample's loop sees it: path (code units),
directory flag, and the outcome of extracting-and-writing it. -/
structure MzEntry where
  path : List Nat
  isDir : Bool
  result : Except String (List Nat)

/-- Embeds the incremental statistics update of the minizip sample (lines
96-99; likewise jszip lines 90-92): only after a file entry's content was
written does `fileTypes[ext]` get bumped, with `ext` the lowercased
extension or the sentinel; directories and failing entries contribute
nothing. -/
def mzStatStep (ft : List (List Nat × Nat)) (e : MzEntry) :
    List (List Nat × Nat) :=
  if e.isDir then ft
  else
    match e.result with
    | Except.ok _ => addCount ft (extBucket e.path) 1
    | Except.error _ => ft

/-- The per-extension counts the minizip sample accumulates over a session,
starting from an empty object. -/
def incrementalStats (entries : List MzEntry) : List (List Nat × Nat) :=
  entries.foldl mzStatStep []

/-- Whether an entry is a file the session successfully extracted. -/
def extractedFile (e : MzEntry) : Bool :=
  !e.isDir &&
    (match e.result with
     | Except.ok _ => true
     | Except.error _ => false)

theorem addCount_countFor (stats : List (List Nat × Nat)) (k' k : List Nat)
    (n : Nat) :
    countFor (addCount stats k' n) k =
      countFor stats k + (if k' = k then n else 0) := by
  induction stats with
  | nil =>
    by_cases h : k' = k <;> simp [addCount, countFor, h]
  | cons p rest ih =>
    rcases p with ⟨k0, c⟩
    by_cases h0 : k0 = k'
    · subst h0
      by_cases hk : k0 = k <;> simp [addCount, countFor, hk]
    · by_cases hk : k0 = k
      · subst hk
        have : ¬ k' = k0 := fun h => h0 h.symm
        simp [addCount, countFor, h0, this]
      · simp [addCount, countFor, h0, hk, ih]

theorem incrementalStats_foldl (entries : List MzEntry)
    (ft : List (List Nat × Nat)) (k : List Nat) :
    countFor (entries.foldl mzStatStep ft) k =
      countFor ft k +
        ((entries.filter extractedFile).map (fun e => extBucket e.path)).count k := by
  induction entries generalizing ft with
  | nil => simp
  | cons e rest ih =>
    rcases e with ⟨p, d, r⟩
    rcases d with _ | _ <;> rcases r with msg | c
    · simp [mzStatStep, extractedFile, List.filter_cons, ih]
    · simp only [List.foldl_cons, mzStatStep, Bool.false_eq_true, if_false]
      rw [ih, addCount_countFor]
      have hfil :
          ((⟨p, false, Except.ok c⟩ : MzEntry) :: rest).filter extractedFile =
            (⟨p, false, Except.ok c⟩ : MzEntry) :: rest.filter extractedFile := by
        simp [List.filter_cons, extractedFile]
      rw [hfil]
      simp only [List.map_cons, List.count_cons, beq_iff_eq]
      by_cases hk : extBucket p = k <;> simp [hk] <;> omega
    · simp [mzStatStep, extractedFile, List.filter_cons, ih]
    · simp [mzStatStep, extractedFile, List.filter_cons, ih]

/-- C9 (amended): the incremental tracker of the minizip/jszip samples
reports, for every extension key, exactly the number of files successfully
extracted in this session whose name buckets to that key — entries outside
the session (e.g. files already under the output root) cannot contribute. -/
theorem incrementalStats_counts_session_only (entries : List MzEntry)
    (k : List Nat) :
    countFor (incrementalStats entries) k =
      ((entries.filter extractedFile).map (fun e => extBucket e.path)).count k := by
  simp [incrementalStats, incrementalStats_foldl, countFor]

/-- A node of the output directory tree as `fs.readdir(..., withFileTypes)`
presents it to the fflate sample's statistics walker. -/
inductive FsTree where
  | file (name : List Nat)
  | dir (name : List Nat) (children : List FsTree)

/-- Embeds `getFileTypeStats` of `src/fflate.ts` lines 44-62 (likewise the
extract-zip sample): walk the directory listing; a file bumps its bucket; a
subdirectory is walked recursively and its counts merged in. -/
def gftsAux (stats : List (List Nat × Nat)) :
    List FsTree → List (List Nat × Nat)
  | [] => stats
  | FsTree.file name :: rest => gftsAux (addCount stats (extBucket name) 1) rest
  | FsTree.dir _ children :: rest =>
      gftsAux
        ((gftsAux [] children).foldl (fun st p => addCount st p.1 p.2) stats)
        rest

/-- The file-type statistics the fflate sample reports: a full re-walk of
the output root after extraction finished. -/
def fflateReWalkStats (root : List FsTree) : List (List Nat × Nat) :=
  gftsAux [] root

/-- The code units of `"old.txt"`, a file already under the output root
before the session starts. -/
def oldTxtName : List Nat := [111, 108, 100, 46, 116, 120, 116]

/-- The code units of `".txt"`. -/
def dotTxtKey : List Nat := [46, 116, 120, 116]

/-- C9 counterexample: with one pre-existing file `old.txt` under the output
root and a session that extracted no entries, the fflate sample's re-walk
reports one `.txt` file while the counts over the session's entries are
empty — a file present before the session started is included in the
reported counts. -/
theorem fflateReWalk_counts_preexisting :
    fflateReWalkStats [FsTree.file oldTxtName] = [(dotTxtKey, 1)] ∧
    incrementalStats [] = [] ∧
    countFor (fflateReWalkStats [FsTree.file oldTxtName]) dotTxtKey ≠
      countFor (incrementalStats []) dotTxtKey := by
  have hb : extBucket oldTxtName = dotTxtKey := by decide
  have h1 : fflateReWalkStats [FsTree.file oldTxtName] = [(dotTxtKey, 1)] := by
    simp [fflateReWalkStats, gftsAux, addCount, hb]
  refine ⟨h1, rfl, ?_⟩
  rw [h1]
  decide
